import Mathlib

/-
Shallow embedding of the "xbatcher for Machine Learning Part 1" cookbook
(notebooks `xbatcher-ML-1` and `surface_currents_prep`).

The notebooks build a sliding-window batcher over a 2D ocean grid:
  * anchor sequences are Python `range(window, axis_len, window - 2*halo)`;
  * patches are rolling windows ending at each anchor pair, stacked into a
    flat `input_batch` axis and filtered by `dropna`;
  * `batch_generator` slices the patch collection into mini-batches;
  * per batch, convolution-branch variables keep the full window while
    dense-branch and target variables are trimmed by `halo` on every edge
    (the `sub` stencil) and variables are stacked channel-last;
  * the prep notebook restricts a dataset to the scenario's variables plus a
    mask and persists/loads train/test/predict slices, and `add_grid`
    attaches five derived grid fields.

Machine values that can be NaN are modelled as `Option` values (NaN = none);
Python integer arithmetic is modelled on `Int`.
-/

set_option autoImplicit false

universe u v

/-! ### Python `range`

Python's `range(start, stop, step)` for `step ≠ 0`; `range` with `step = 0`
raises `ValueError`, modelled as `none`.  The auxiliary functions use fuel;
`(stop - start).toNat` (resp. `(start - stop).toNat`) bounds the number of
iterations whenever the step is positive (resp. negative). -/

def rangeUpAux : Nat → Int → Int → Int → List Int
  | 0, _, _, _ => []
  | fuel+1, start, stop, step =>
    if start < stop then start :: rangeUpAux fuel (start + step) stop step else []

def rangeDownAux : Nat → Int → Int → Int → List Int
  | 0, _, _, _ => []
  | fuel+1, start, stop, step =>
    if stop < start then start :: rangeDownAux fuel (start + step) stop step else []

def pyRange (start stop step : Int) : Option (List Int) :=
  if step = 0 then none
  else if 0 < step then some (rangeUpAux (stop - start).toNat start stop step)
  else some (rangeDownAux (start - stop).toNat start stop step)

/-- Source: `nlon_range = range(nlons, lonlen, nlons - 2*halo_size)`. -/
def nlon_range (nlons lonlen halo : Nat) : Option (List Int) :=
  pyRange nlons lonlen ((nlons : Int) - 2 * halo)

/-- Source: `nlat_range = range(nlats, latlen, nlats - 2*halo_size)`. -/
def nlat_range (nlats latlen halo : Nat) : Option (List Int) :=
  pyRange nlats latlen ((nlats : Int) - 2 * halo)

/-! ### Halo size

Source: `halo_size = int((np.sum(conv_kernels) - len(conv_kernels))/2)`.
Python's `int(...)` truncates the true-division result toward zero, which on
`Int` is `Int.div`; kernel sizes are `Nat`s. -/

def halo_size (conv_kernels : List Nat) : Int :=
  Int.tdiv ((conv_kernels.sum : Int) - conv_kernels.length) 2

/-! ### The mini-batch generator

Source:
```
def batch_generator(batch_set, batch_size):
    n = 0
    while n < len(batch_set['input_batch']) - batch_size:
        yield batch_set.isel({'input_batch':range(n,(n+batch_size))})
        n += batch_size
```
The generator is finite; we embed it as the list of all batches it yields.
`len(batch_set) - batch_size` is Python integer subtraction, so the
comparison is on `Int`.  The fuel `batch_set.length` bounds the number of
yields for every positive `batch_size` (for `batch_size = 0` the Python
loop diverges; the claims only concern positive batch sizes). -/

def batchGenAux {α : Type u} (batch_set : List α) (batch_size : Nat) : Nat → Nat → List (List α)
  | 0, _ => []
  | fuel+1, n =>
    if (n : Int) < (batch_set.length : Int) - (batch_size : Int) then
      ((batch_set.drop n).take batch_size) :: batchGenAux batch_set batch_size fuel (n + batch_size)
    else []

def batch_generator {α : Type u} (batch_set : List α) (batch_size : Nat) : List (List α) :=
  batchGenAux batch_set batch_size batch_set.length 0

/-! ### Grid datasets and the rolling-window patch pipeline

A prepared grid slice maps variable names to cell values on the 2D
`(nlat, nlon)` grid.  A cell is `Option α`: `none` models NaN, and also the
NaN padding produced by `rolling(...).construct` where a window hangs off
the grid edge, so `vals` is total on `Int` indices with `none` outside the
grid. -/

structure GridDS (α : Type u) where
  varNames : List String
  vals : String → Int → Int → Option α

/-- The rolling window of variable `v` ending at anchor `(i, j)`: the
`nlats × nlons` block of cells with rows `i - nlats + 1 .. i` and columns
`j - nlons + 1 .. j`, as built by
`ds.rolling({'nlat': nlats, 'nlon': nlons}).construct(...)` evaluated at the
anchor. -/
def patchWindow {α : Type u} (ds : GridDS α) (nlats nlons : Nat) (i j : Int) (v : String) :
    List (List (Option α)) :=
  (List.range nlats).map fun (r : Nat) =>
    (List.range nlons).map fun (c : Nat) =>
      ds.vals v (i - nlats + 1 + (r : Int)) (j - nlons + 1 + (c : Int))

/-- One patch: every variable of the dataset paired with its window at the
given anchor. -/
def patchAt {α : Type u} (ds : GridDS α) (nlats nlons : Nat) (i j : Int) :
    List (String × List (List (Option α))) :=
  ds.varNames.map fun v => (v, patchWindow ds nlats nlons i j v)

/-- A patch contains an undefined (NaN) value in some variable. -/
def hasNaN {α : Type u} (p : List (String × List (List (Option α)))) : Bool :=
  p.any fun vw => vw.2.any fun row => row.any fun cell => cell.isNone

/-- Source: `.stack({"input_batch": ("nlat", "nlon")})` — the `(nlat, nlon)`
anchor pairing flattened row-major (`nlat` outer, `nlon` inner). -/
def stackAnchors (latAnchors lonAnchors : List Int) : List (Int × Int) :=
  latAnchors.flatMap fun i => lonAnchors.map fun j => (i, j)

/-- The flattened patch collection (source variable `batch`): rolling-window
construction at every `(nlat_range, nlat_range)` anchor pair, stacked into
the `input_batch` axis, with `.dropna('input_batch')` removing every patch
that contains a NaN in any variable.  Each element keeps its anchor pair. -/
def make_batch {α : Type u} (ds : GridDS α) (nlats nlons : Nat)
    (latAnchors lonAnchors : List Int) :
    List ((Int × Int) × List (String × List (List (Option α)))) :=
  ((stackAnchors latAnchors lonAnchors).map fun ij =>
      (ij, patchAt ds nlats nlons ij.1 ij.2)).filter fun x => !hasNaN x.2

/-! ### Per-batch tensor construction

Source (training loop, and the test/predict cells):
```
sub = {'nlon':range(halo_size,nlons-halo_size),
       'nlat':range(halo_size,nlats-halo_size)}
batch_conv   = [batch[x] for x in sc.conv_var]
batch_input  = [batch[x][sub] for x in sc.input_var]
batch_target = [batch[x][sub] for x in sc.target]
batch_conv   = xr.merge(batch_conv).to_array('var').transpose(...,'var')
...
```
A mini-batch is a list of (anchor, patch) pairs; `batch[x]` extracts the
per-sample window of variable `x`, `[sub]` trims `halo` points from every
edge of both spatial axes, and merge/to_array/transpose stacks the group's
variables along a new trailing `var` (channel) axis. -/

/-- Python `list[range(lo, hi)]` positional selection along one axis. -/
def pySelect {β : Type u} (lo hi : Nat) (l : List β) : List β :=
  (l.drop lo).take (hi - lo)

/-- The `sub` stencil applied to one window: rows `halo .. nlats-halo-1` and
columns `halo .. nlons-halo-1`. -/
def subWindow {β : Type u} (halo nlats nlons : Nat) (w : List (List β)) : List (List β) :=
  (pySelect halo (nlats - halo) w).map (pySelect halo (nlons - halo))

/-- Variable extraction from a patch (`batch[x]` per sample); a missing
variable is a fatal KeyError in the source, out of scope of the claims. -/
def getVar {α : Type u} (p : List (String × List (List (Option α)))) (v : String) :
    List (List (Option α)) :=
  (List.lookup v p).getD []

/-- `batch[x]`: the `[sample, nlat, nlon]` tensor of variable `v`. -/
def tensorOf {α : Type u}
    (mb : List ((Int × Int) × List (String × List (List (Option α))))) (v : String) :
    List (List (List (Option α))) :=
  mb.map fun tp => getVar tp.2 v

/-- Cell access in a `[sample, row, col]` tensor of `Option`-valued cells. -/
def cell3 {α : Type u} (t : List (List (List (Option α)))) (s r c : Nat) : Option α :=
  ((((t.get? s).bind (fun u => u.get? r)).bind (fun w => w.get? c))).join

def rowsOf {β : Type u} (t : List (List (List β))) : Nat :=
  (t.head?.getD []).length

def colsOf {β : Type u} (t : List (List (List β))) : Nat :=
  ((t.head?.getD []).head?.getD []).length

/-- Stack a group of equally-shaped `[sample, row, col]` variable tensors
along a new trailing channel axis (`xr.merge(...).to_array('var')
.transpose(...,'var')`); dimensions are read off the first tensor, exactly
as alignment fixes them in the source. -/
def varLast {α : Type u} (ts : List (List (List (List (Option α))))) :
    List (List (List (List (Option α)))) :=
  match ts with
  | [] => []
  | t :: _ =>
    (List.range t.length).map fun s =>
      (List.range (rowsOf t)).map fun r =>
        (List.range (colsOf t)).map fun c =>
          ts.map fun u => cell3 u s r c

/-- Scenario dataclass from the notebook. -/
structure Scenario where
  conv_var : List String
  input_var : List String
  target : List String
  name : String

/-- Training-loop `batch_conv`: full windows of the convolution-branch
variables, channel-last in declared order. -/
def batch_conv {α : Type u} (sc : Scenario)
    (mb : List ((Int × Int) × List (String × List (List (Option α))))) :
    List (List (List (List (Option α)))) :=
  varLast (sc.conv_var.map fun v => tensorOf mb v)

/-- Training-loop `batch_input`: halo-trimmed windows of the dense-branch
variables, channel-last in declared order. -/
def batch_input {α : Type u} (sc : Scenario) (halo nlats nlons : Nat)
    (mb : List ((Int × Int) × List (String × List (List (Option α))))) :
    List (List (List (List (Option α)))) :=
  varLast (sc.input_var.map fun v => (tensorOf mb v).map (subWindow halo nlats nlons))

/-- Training-loop `batch_target`: halo-trimmed windows of the target
variables, channel-last in declared order. -/
def batch_target {α : Type u} (sc : Scenario) (halo nlats nlons : Nat)
    (mb : List ((Int × Int) × List (String × List (List (Option α))))) :
    List (List (List (List (Option α)))) :=
  varLast (sc.target.map fun v => (tensorOf mb v).map (subWindow halo nlats nlons))

/-! ### Test and prediction tensor cells

Source (testing section):
```
test_conv   = [batch_test[x]      for x in sc.conv_var]
test_input  = [batch_test[x][sub] for x in sc.input_var]
```
and (prediction section, which receives both `batch_test` and
`batch_predict` in scope but indexes `batch_test`):
```
predict_conv  = [batch_test[x]      for x in sc.conv_var]
predict_input = [batch_test[x][sub] for x in sc.input_var]
``` -/

def test_conv {α : Type u} (sc : Scenario)
    (batch_test : List ((Int × Int) × List (String × List (List (Option α))))) :
    List (List (List (List (Option α)))) :=
  varLast (sc.conv_var.map fun v => tensorOf batch_test v)

def test_input {α : Type u} (sc : Scenario) (halo nlats nlons : Nat)
    (batch_test : List ((Int × Int) × List (String × List (List (Option α))))) :
    List (List (List (List (Option α)))) :=
  varLast (sc.input_var.map fun v => (tensorOf batch_test v).map (subWindow halo nlats nlons))

def predict_conv {α : Type u} (sc : Scenario)
    (batch_test batch_predict : List ((Int × Int) × List (String × List (List (Option α))))) :
    List (List (List (List (Option α)))) :=
  varLast (sc.conv_var.map fun v => tensorOf batch_test v)

def predict_input {α : Type u} (sc : Scenario) (halo nlats nlons : Nat)
    (batch_test batch_predict : List ((Int × Int) × List (String × List (List (Option α))))) :
    List (List (List (List (Option α)))) :=
  varLast (sc.input_var.map fun v => (tensorOf batch_test v).map (subWindow halo nlats nlons))

/-! ### Prediction reassembly

Source: `U_pred = predict_target[:,0,0,0].reshape(545, 345)` — a NumPy
row-major reshape of the flat sample axis back onto the anchor grid. -/

def reshape2 {β : Type u} (p : List β) (rows cols : Nat) : List (List β) :=
  (List.range rows).map fun r => (p.drop (r * cols)).take cols

/-! ### Dataset preparation and loading (`surface_currents_prep` notebook)

`prepare_data` fetches the catalog dataset, renames raw variables, applies
`add_grid`, computes a validity mask at a reference time, restricts the
dataset to the scenario's variables plus the mask, and writes the three
time slices to the zarr store under `{role}_{scenario.name}` keys; the
`loader` reads one slice back by the same key.

A raw multi-time dataset is a list of named fields.  Fields, and the
chunked-array operations on them — `~np.isnan` (`notnan`), `&` (`andf`) and
`.isel(time=t)` (`iselT`) — are kept abstract, as are the catalog fetch and
the `add_grid` augmentation (`addg`), following spec §9's external
capability interface for the array backend; the variable-name bookkeeping
the round-trip claim is about is embedded exactly. -/

structure RawDS (φ : Type u) where
  vars : List (String × φ)

def dsLookup {φ : Type u} (ds : RawDS φ) (v : String) : Option φ :=
  List.lookup v ds.vars

def dsNames {φ : Type u} (ds : RawDS φ) : List String :=
  ds.vars.map Prod.fst

/-- Source: `ds.rename({'U1_1':'U', 'V1_1':'V', 'TAUX_2':'TAUX',
'TAUY_2':'TAUY', 'SSH_2':'SSH', 'ULONG':'XU', 'ULAT':'YU'})`. -/
def rename_pairs : List (String × String) :=
  [("U1_1", "U"), ("V1_1", "V"), ("TAUX_2", "TAUX"), ("TAUY_2", "TAUY"),
   ("SSH_2", "SSH"), ("ULONG", "XU"), ("ULAT", "YU")]

def renameDS {φ : Type u} (ds : RawDS φ) : RawDS φ :=
  ⟨ds.vars.map fun nv => ((List.lookup nv.1 rename_pairs).getD nv.1, nv.2)⟩

/-- Source: `def get_mask_from(ds, x): return ~np.isnan(ds[x])`. -/
def get_mask_from {φ : Type u} (notnan : φ → φ) (ds : RawDS φ) (x : String) : Option φ :=
  (dsLookup ds x).map notnan

/-- Source: `ds[varList]` — restrict to the listed variables, in order; a
missing variable is a KeyError (`none`). -/
def selectVars {φ : Type u} (ds : RawDS φ) (names : List String) : Option (RawDS φ) :=
  (names.mapM fun v => (dsLookup ds v).map fun f => (v, f)).map RawDS.mk

/-- Source: `ds.isel(time = t)` applied to a whole dataset. -/
def iselDS {φ : Type u} (iselT : φ → Nat → φ) (ds : RawDS φ) (t : Nat) : RawDS φ :=
  ⟨ds.vars.map fun nv => (nv.1, iselT nv.2 t)⟩

/-- The zarr store: most-recent write of a group key wins (`mode = 'w'`
overwrites), modelled by prepending and first-match lookup. -/
def Store (φ : Type u) : Type u := List (String × RawDS φ)

def storeWrite {φ : Type u} (st : Store φ) (key : String) (d : RawDS φ) : Store φ :=
  (key, d) :: st

/-- Source: `prepare_data(sc, training_time, test_time, predict_time,
mask_time=11)` from the renamed catalog dataset onward:
```
ds = ds.rename({...})
ds = add_grid(ds)
mask1 = get_mask_from(ds, 'SSH')[{'time':mask_time}]
mask2 = get_mask_from(ds, 'TAUY')[{'time':mask_time}]
mask3 = get_mask_from(ds, 'U')[{'time':mask_time}]
mask = mask1 & mask2 & mask3
varList = sc.conv_var + sc.input_var + sc.target
ds = ds[varList]
ds['mask'] = mask
ds_training = ds.isel(time = training_time)
ds_training.to_zarr('scenarios/', group = 'training_' + sc.name + '.zarr', mode = 'w')
...
```
`none` models the raised KeyError when a referenced variable is absent. -/
def prepare_data {φ : Type u} (notnan : φ → φ) (andf : φ → φ → φ) (iselT : φ → Nat → φ)
    (addg : RawDS φ → Option (RawDS φ)) (cat : RawDS φ) (sc : Scenario)
    (training_time test_time predict_time mask_time : Nat) (st : Store φ) :
    Option (Store φ) := do
  let ds0 := renameDS cat
  let ds1 ← addg ds0
  let mask1 ← get_mask_from notnan ds1 "SSH"
  let mask2 ← get_mask_from notnan ds1 "TAUY"
  let mask3 ← get_mask_from notnan ds1 "U"
  let mask := andf (andf (iselT mask1 mask_time) (iselT mask2 mask_time)) (iselT mask3 mask_time)
  let varList := sc.conv_var ++ sc.input_var ++ sc.target
  let restricted ← selectVars ds1 varList
  let ds2 : RawDS φ := ⟨restricted.vars ++ [("mask", mask)]⟩
  let st1 := storeWrite st ("training_" ++ sc.name) (iselDS iselT ds2 training_time)
  let st2 := storeWrite st1 ("test_" ++ sc.name) (iselDS iselT ds2 test_time)
  let st3 := storeWrite st2 ("predict_" ++ sc.name) (iselDS iselT ds2 predict_time)
  some st3

/-- Source: `def loader(sc, name): return xr.open_zarr('scenarios/',
group = name + '_' + sc.name + '.zarr')`. -/
def loader {φ : Type u} (st : Store φ) (sc : Scenario) (role : String) : Option (RawDS φ) :=
  List.lookup (role ++ "_" ++ sc.name) st

def load_training_data {φ : Type u} (st : Store φ) (sc : Scenario) : Option (RawDS φ) :=
  loader st sc "training"

def load_test_data {φ : Type u} (st : Store φ) (sc : Scenario) : Option (RawDS φ) :=
  loader st sc "test"

def load_predict_data {φ : Type u} (st : Store φ) (sc : Scenario) : Option (RawDS φ) :=
  loader st sc "predict"

/-! ### Grid feature augmenter (`add_grid`)

Source:
```
def add_grid(ds):
    X = lambda lat: np.sin(np.radians(lat))
    Y = lambda lat, lon:  np.cos(np.radians(lat)) * np.sin(np.radians(lon))
    Z = lambda lat, lon: -np.cos(np.radians(lat)) * np.cos(np.radians(lon))
    delta = lambda dx, dxMean, dxStd: (dx - dxMean)/dxStd
    lats = ds.YU.data ; lons = ds.XU.data ; DX = ds.DXT.data ; DY = ds.DYT.data
    x = X(lats) ; y = Y(lats, lons) ; z = Z(lats, lons)
    dX = delta(DX, np.mean(DX), np.std(DX)) ; dY = delta(DY, np.mean(DY), np.std(DY))
    ds['X'] = ds.XU.dims, x ; ... ; ds['dy'] = ds.XU.dims, dY
    return(ds)
```
Fields are 2D arrays of scalars in a division ring; the transcendental and
reduction primitives (`np.sin`, `np.cos`, `np.radians`, `np.mean`,
`np.std`) are passed in as the array backend's capabilities (spec §9). -/

def gmap {α : Type u} (f : α → α) (g : List (List α)) : List (List α) :=
  g.map (List.map f)

def gmap2 {α : Type u} (f : α → α → α) (g h : List (List α)) : List (List α) :=
  List.zipWith (List.zipWith f) g h

def add_grid {α : Type u} [DivisionRing α] (sinF cosF radians : α → α)
    (meanF stdF : List (List α) → α) (ds : RawDS (List (List α))) :
    Option (RawDS (List (List α))) :=
  match dsLookup ds "YU", dsLookup ds "XU", dsLookup ds "DXT", dsLookup ds "DYT" with
  | some lats, some lons, some dx0, some dy0 =>
    let x := gmap (fun la => sinF (radians la)) lats
    let y := gmap2 (fun la lo => cosF (radians la) * sinF (radians lo)) lats lons
    let z := gmap2 (fun la lo => (-cosF (radians la)) * cosF (radians lo)) lats lons
    let dX := gmap (fun d => (d - meanF dx0) / stdF dx0) dx0
    let dY := gmap (fun d => (d - meanF dy0) / stdF dy0) dy0
    some ⟨ds.vars ++ [("X", x), ("Y", y), ("Z", z), ("dx", dX), ("dy", dY)]⟩
  | _, _, _, _ => none

/-- Cell access into an optional 2D field at grid location `(i, k)`. -/
def cellAt {α : Type u} (g : Option (List (List α))) (i k : Nat) : Option α :=
  (g.bind fun rows => rows.get? i).bind fun row => row.get? k

/-- Shape of a `[sample, row, col]` tensor. -/
def shape3 {β : Type u} (t : List (List (List β))) (S R C : Nat) : Prop :=
  t.length = S ∧ ∀ u ∈ t, u.length = R ∧ ∀ w ∈ u, w.length = C

/-- Positional access to a `[sample, row, col, channel]` tensor: the channel
vector sitting at sample `s`, row `r`, column `c`. -/
def get4 {β : Type u} (t : List (List (List (List β)))) (s r c : Nat) : Option (List β) :=
  ((t.get? s).bind fun u => u.get? r).bind fun w => w.get? c

/-! ### Small concrete instances used to exercise the development -/

/-- A 4-variable NaN-free sample grid. -/
def dsW : GridDS Int := ⟨["SSH", "TAUX", "U", "V"], fun _ _ _ => some 0⟩

/-- A sample scenario over `dsW` (shape of `sc1` in the notebook). -/
def scW : Scenario := ⟨["SSH"], ["TAUX"], ["U", "V"], "w"⟩

/-- The first mini-batch the generator yields on `dsW` with 1×1 windows,
anchors `[0] × [0, 1]` and batch size 1. -/
def mbW : List ((Int × Int) × List (String × List (List (Option Int)))) :=
  [((0, 0), patchAt dsW 1 1 0 0)]

/-- A raw catalog-shaped sample dataset (pre-rename variable names). -/
def catW : RawDS Unit :=
  ⟨[("SSH_2", ()), ("TAUY_2", ()), ("TAUX_2", ()), ("U1_1", ()), ("V1_1", ())]⟩

/-- The prepared slice the sample run writes for every role. -/
def rdsW : RawDS Unit :=
  ⟨[("SSH", ()), ("TAUX", ()), ("U", ()), ("V", ()), ("mask", ())]⟩

/-- The store after running the preparer on `catW` for scenario `scW`. -/
def stW : Store Unit :=
  [("predict_w", rdsW), ("test_w", rdsW), ("training_w", rdsW)]

/-- A one-cell sample grid dataset for the grid augmenter. -/
def gridDSW : RawDS (List (List ℚ)) :=
  ⟨[("YU", [[1]]), ("XU", [[2]]), ("DXT", [[3]]), ("DYT", [[4]])]⟩

/-! ## Helper lemmas -/

/-! ### Python ranges with positive step -/

theorem mem_rangeUpAux_bounds (step : Int) (hstep : 0 < step) :
    ∀ (fuel : Nat) (start stop v : Int),
      v ∈ rangeUpAux fuel start stop step → start ≤ v ∧ v < stop := by
  intro fuel
  induction fuel with
  | zero => intro start stop v h; simp [rangeUpAux] at h
  | succ fuel ih =>
    intro start stop v h
    rw [rangeUpAux] at h
    by_cases hlt : start < stop
    · rw [if_pos hlt] at h
      rcases List.mem_cons.mp h with rfl | h2
      · exact ⟨le_refl v, hlt⟩
      · have := ih (start + step) stop v h2
        constructor
        · omega
        · exact this.2
    · rw [if_neg hlt] at h
      simp at h

theorem not_exists_anchor_of_ge (step start stop v : Int) (hstep : 0 < step)
    (hss : stop ≤ start) : ¬∃ k : Nat, v = start + k * step ∧ v < stop := by
  rintro ⟨k, rfl, hv⟩
  have hk : 0 ≤ (k : Int) * step := mul_nonneg (by positivity) (le_of_lt hstep)
  omega

theorem mem_rangeUpAux_iff (step : Int) (hstep : 0 < step) :
    ∀ (fuel : Nat) (start stop v : Int), (stop - start).toNat ≤ fuel →
      (v ∈ rangeUpAux fuel start stop step ↔ ∃ k : Nat, v = start + k * step ∧ v < stop) := by
  intro fuel
  induction fuel with
  | zero =>
    intro start stop v hf
    have hss : stop ≤ start := by omega
    simp only [rangeUpAux, List.not_mem_nil, false_iff]
    exact not_exists_anchor_of_ge step start stop v hstep hss
  | succ fuel ih =>
    intro start stop v hf
    rw [rangeUpAux]
    by_cases hlt : start < stop
    · rw [if_pos hlt, List.mem_cons, ih (start + step) stop v (by omega)]
      constructor
      · rintro (rfl | ⟨k, rfl, hv⟩)
        · exact ⟨0, by simp, hlt⟩
        · refine ⟨k + 1, ?_, hv⟩
          push_cast
          ring
      · rintro ⟨k, rfl, hv⟩
        cases k with
        | zero => left; simp
        | succ k =>
          right
          refine ⟨k, ?_, hv⟩
          push_cast
          ring
    · rw [if_neg hlt]
      simp only [List.not_mem_nil, false_iff]
      exact not_exists_anchor_of_ge step start stop v hstep (by omega)

theorem pairwise_rangeUpAux (step : Int) (hstep : 0 < step) :
    ∀ (fuel : Nat) (start stop : Int),
      List.Pairwise (fun a c => a < c) (rangeUpAux fuel start stop step) := by
  intro fuel
  induction fuel with
  | zero => intro start stop; simp [rangeUpAux]
  | succ fuel ih =>
    intro start stop
    rw [rangeUpAux]
    by_cases hlt : start < stop
    · rw [if_pos hlt]
      refine List.Pairwise.cons ?_ (ih (start + step) stop)
      intro v hv
      have := (mem_rangeUpAux_bounds step hstep fuel (start + step) stop v hv).1
      omega
    · rw [if_neg hlt]
      exact List.Pairwise.nil

theorem pyRange_pos_step (start stop step : Int) (hstep : 0 < step) :
    pyRange start stop step = some (rangeUpAux (stop - start).toNat start stop step) := by
  rw [pyRange, if_neg (by omega), if_pos hstep]

theorem pyRange_neg_step_empty (start stop step : Int) (hstep : step < 0) (hss : start ≤ stop) :
    pyRange start stop step = some [] := by
  rw [pyRange, if_neg (by omega), if_neg (by omega)]
  have h0 : (start - stop).toNat = 0 := by omega
  rw [h0, rangeDownAux]

/-! ### The patch pipeline: membership and window shapes -/

theorem mem_stackAnchors (latA lonA : List Int) (i j : Int) :
    (i, j) ∈ stackAnchors latA lonA ↔ i ∈ latA ∧ j ∈ lonA := by
  simp [stackAnchors]

theorem mem_make_batch {α : Type u} (ds : GridDS α) (nlats nlons : Nat)
    (latA lonA : List Int) (x : (Int × Int) × List (String × List (List (Option α)))) :
    x ∈ make_batch ds nlats nlons latA lonA ↔
      ∃ i j, i ∈ latA ∧ j ∈ lonA ∧ x = ((i, j), patchAt ds nlats nlons i j) ∧
        hasNaN (patchAt ds nlats nlons i j) = false := by
  rw [make_batch, List.mem_filter]
  simp only [List.mem_map, Bool.not_eq_eq_eq_not, Bool.not_true]
  constructor
  · rintro ⟨⟨ij, hij, rfl⟩, hnan⟩
    rcases (mem_stackAnchors latA lonA ij.1 ij.2).mp hij with ⟨hi, hj⟩
    exact ⟨ij.1, ij.2, hi, hj, rfl, hnan⟩
  · rintro ⟨i, j, hi, hj, rfl, hnan⟩
    refine ⟨⟨(i, j), (mem_stackAnchors latA lonA i j).mpr ⟨hi, hj⟩, rfl⟩, hnan⟩

theorem lookup_map_self {β : Type v} (names : List String) (f : String → β) (v : String)
    (hv : v ∈ names) :
    List.lookup v (names.map fun n => (n, f n)) = some (f v) := by
  induction names with
  | nil => simp at hv
  | cons n ns ih =>
    by_cases h : v = n
    · subst h
      simp [List.lookup]
    · rcases List.mem_cons.mp hv with h' | h'
      · exact absurd h' h
      · simpa [List.lookup, beq_false_of_ne h] using ih h'

theorem getVar_patchAt {α : Type u} (ds : GridDS α) (nlats nlons : Nat) (i j : Int)
    (v : String) (hv : v ∈ ds.varNames) :
    getVar (patchAt ds nlats nlons i j) v = patchWindow ds nlats nlons i j v := by
  rw [getVar, patchAt, lookup_map_self ds.varNames _ v hv]
  rfl

theorem get?_range_map {β : Type v} (n : Nat) (f : Nat → β) (r : Nat) (hr : r < n) :
    ((List.range n).map f).get? r = some (f r) := by
  rw [List.get?_map, List.get?_range hr]
  rfl

theorem get?_pySelect {β : Type v} (lo hi : Nat) (l : List β) (r : Nat) (hr : r < hi - lo) :
    (pySelect lo hi l).get? r = l.get? (lo + r) := by
  rw [pySelect, List.get?_take hr, List.get?_drop]

theorem length_pySelect {β : Type v} (lo hi : Nat) (l : List β) :
    (pySelect lo hi l).length = min (hi - lo) (l.length - lo) := by
  simp [pySelect]

theorem patchWindow_cell {α : Type u} (ds : GridDS α) (nlats nlons : Nat) (i j : Int)
    (v : String) (r c : Nat) (hr : r < nlats) (hc : c < nlons) :
    ((patchWindow ds nlats nlons i j v).get? r).bind (fun row => row.get? c) =
      some (ds.vals v (i - nlats + 1 + r) (j - nlons + 1 + c)) := by
  rw [patchWindow, get?_range_map nlats _ r hr]
  simp only [Option.some_bind]
  rw [get?_range_map nlons _ c hc]

theorem shape_patchWindow {α : Type u} (ds : GridDS α) (nlats nlons : Nat) (i j : Int)
    (v : String) :
    (patchWindow ds nlats nlons i j v).length = nlats ∧
      ∀ row ∈ patchWindow ds nlats nlons i j v, row.length = nlons := by
  constructor
  · simp [patchWindow]
  · intro row hrow
    rcases List.mem_map.mp hrow with ⟨r, _, rfl⟩
    simp

/-! ### Channel-last stacking -/

theorem varLast_spec {α : Type u} (ts : List (List (List (List (Option α))))) (S R C : Nat)
    (hne : ts ≠ []) (hsh : ∀ t ∈ ts, shape3 t S R C) :
    (varLast ts).length = S ∧
      (∀ pl ∈ varLast ts, pl.length = R ∧ ∀ row ∈ pl,
        row.length = C ∧ ∀ cell ∈ row, cell.length = ts.length) ∧
      ∀ s r c, s < S → r < R → c < C →
        get4 (varLast ts) s r c = some (ts.map fun u => cell3 u s r c) := by
  obtain ⟨t0, rest, rfl⟩ : ∃ t0 rest, ts = t0 :: rest := by
    cases ts with
    | nil => exact absurd rfl hne
    | cons a l => exact ⟨a, l, rfl⟩
  obtain ⟨hS, hsh0⟩ := hsh t0 (List.mem_cons_self t0 rest)
  have hrows : 0 < S → rowsOf t0 = R := by
    intro hpos
    rw [rowsOf]
    cases t0 with
    | nil => simp at hS; omega
    | cons u0 us => simpa using (hsh0 u0 (List.mem_cons_self u0 us)).1
  have hcols : 0 < S → 0 < R → colsOf t0 = C := by
    intro hpos hposR
    rw [colsOf]
    cases t0 with
    | nil => simp at hS; omega
    | cons u0 us =>
      obtain ⟨hu0, hrow0⟩ := hsh0 u0 (List.mem_cons_self u0 us)
      cases u0 with
      | nil => simp at hu0; omega
      | cons w0 ws => simpa using hrow0 w0 (List.mem_cons_self w0 ws)
  refine ⟨?_, ?_, ?_⟩
  · rw [varLast]
    simp [hS]
  · intro pl hpl
    rw [varLast] at hpl
    rcases List.mem_map.mp hpl with ⟨s, hs, rfl⟩
    have hsS : s < S := hS ▸ List.mem_range.mp hs
    have hR := hrows (by omega)
    refine ⟨by simp [hR], ?_⟩
    intro row hrow
    rcases List.mem_map.mp hrow with ⟨r, hr, rfl⟩
    have hrR : r < R := hR ▸ List.mem_range.mp hr
    have hC := hcols (by omega) (by omega)
    refine ⟨by simp [hC], ?_⟩
    intro cell hcell
    rcases List.mem_map.mp hcell with ⟨c, hc, rfl⟩
    simp
  · intro s r c hsS hrR hcC
    have hR := hrows (by omega)
    have hC := hcols (by omega) (by omega)
    rw [get4, varLast, get?_range_map t0.length _ s (hS ▸ hsS)]
    simp only [Option.some_bind]
    rw [get?_range_map (rowsOf t0) _ r (hR ▸ hrR)]
    simp only [Option.some_bind]
    rw [get?_range_map (colsOf t0) _ c (hC ▸ hcC)]

/-! ### Tensor cells over pipeline patches -/

theorem cell3_tensorOf {α : Type u}
    (mb : List ((Int × Int) × List (String × List (List (Option α))))) (v : String)
    (s r c : Nat) (ij : Int × Int) (p : List (String × List (List (Option α))))
    (hs : mb.get? s = some (ij, p)) :
    cell3 (tensorOf mb v) s r c = ((((getVar p v).get? r).bind fun w => w.get? c)).join := by
  rw [cell3, tensorOf, List.get?_map, hs]
  rfl

theorem cell3_tensorOf_map {α : Type u}
    (mb : List ((Int × Int) × List (String × List (List (Option α))))) (v : String)
    (f : List (List (Option α)) → List (List (Option α)))
    (s r c : Nat) (ij : Int × Int) (p : List (String × List (List (Option α))))
    (hs : mb.get? s = some (ij, p)) :
    cell3 ((tensorOf mb v).map f) s r c =
      ((((f (getVar p v)).get? r).bind fun w => w.get? c)).join := by
  rw [cell3, List.get?_map, tensorOf, List.get?_map, hs]
  rfl

theorem cell3_patch {α : Type u} (ds : GridDS α) (nlats nlons : Nat)
    (mb : List ((Int × Int) × List (String × List (List (Option α))))) (v : String)
    (s r c : Nat) (i j : Int) (p : List (String × List (List (Option α))))
    (hs : mb.get? s = some ((i, j), p)) (hp : p = patchAt ds nlats nlons i j)
    (hv : v ∈ ds.varNames) (hr : r < nlats) (hc : c < nlons) :
    cell3 (tensorOf mb v) s r c = ds.vals v (i - nlats + 1 + r) (j - nlons + 1 + c) := by
  rw [cell3_tensorOf mb v s r c (i, j) p hs, hp, getVar_patchAt ds nlats nlons i j v hv,
    patchWindow_cell ds nlats nlons i j v r c hr hc]
  rfl

theorem cell3_patch_sub {α : Type u} (ds : GridDS α) (halo nlats nlons : Nat)
    (mb : List ((Int × Int) × List (String × List (List (Option α))))) (v : String)
    (s r c : Nat) (i j : Int) (p : List (String × List (List (Option α))))
    (hs : mb.get? s = some ((i, j), p)) (hp : p = patchAt ds nlats nlons i j)
    (hv : v ∈ ds.varNames) (hr : r < nlats - 2 * halo) (hc : c < nlons - 2 * halo) :
    cell3 ((tensorOf mb v).map (subWindow halo nlats nlons)) s r c =
      ds.vals v (i - nlats + 1 + (halo + r : Nat)) (j - nlons + 1 + (halo + c : Nat)) := by
  rw [cell3_tensorOf_map mb v _ s r c (i, j) p hs, hp,
    getVar_patchAt ds nlats nlons i j v hv, subWindow, List.get?_map,
    get?_pySelect halo (nlats - halo) _ r (by omega), patchWindow,
    get?_range_map nlats _ (halo + r) (by omega)]
  simp only [Option.map_some', Option.some_bind]
  rw [get?_pySelect halo (nlons - halo) _ c (by omega),
    get?_range_map nlons _ (halo + c) (by omega)]
  rfl

theorem shape3_tensorOf {α : Type u} (ds : GridDS α) (nlats nlons : Nat)
    (mb : List ((Int × Int) × List (String × List (List (Option α))))) (v : String)
    (hform : ∀ tp ∈ mb, ∃ i j, tp = ((i, j), patchAt ds nlats nlons i j))
    (hv : v ∈ ds.varNames) :
    shape3 (tensorOf mb v) mb.length nlats nlons := by
  constructor
  · simp [tensorOf]
  · intro u hu
    rcases List.mem_map.mp hu with ⟨tp, htp, rfl⟩
    rcases hform tp htp with ⟨i, j, rfl⟩
    rw [getVar_patchAt ds nlats nlons i j v hv]
    exact shape_patchWindow ds nlats nlons i j v

theorem shape3_tensorOf_sub {α : Type u} (ds : GridDS α) (halo nlats nlons : Nat)
    (mb : List ((Int × Int) × List (String × List (List (Option α))))) (v : String)
    (hform : ∀ tp ∈ mb, ∃ i j, tp = ((i, j), patchAt ds nlats nlons i j))
    (hv : v ∈ ds.varNames) :
    shape3 ((tensorOf mb v).map (subWindow halo nlats nlons)) mb.length
      (nlats - 2 * halo) (nlons - 2 * halo) := by
  constructor
  · simp [tensorOf]
  · intro u hu
    rcases List.mem_map.mp hu with ⟨w, hw, rfl⟩
    rcases List.mem_map.mp hw with ⟨tp, htp, rfl⟩
    rcases hform tp htp with ⟨i, j, rfl⟩
    rw [getVar_patchAt ds nlats nlons i j v hv]
    have hwin := shape_patchWindow ds nlats nlons i j v
    constructor
    · rw [subWindow, List.length_map, length_pySelect, hwin.1]
      omega
    · intro row hrow
      rw [subWindow] at hrow
      rcases List.mem_map.mp hrow with ⟨row0, hrow0, rfl⟩
      have hmem : row0 ∈ patchWindow ds nlats nlons i j v := by
        rw [pySelect] at hrow0
        exact List.drop_subset _ _ (List.take_subset _ _ hrow0)
      rw [length_pySelect, hwin.2 row0 hmem]
      omega

/-! ### The batch generator as a list of slices -/

theorem batchGenAux_eq_slices {α : Type u} (l : List α) (b : Nat) (hb : 0 < b) :
    ∀ (fuel n : Nat), l.length - n ≤ fuel →
      batchGenAux l b fuel n =
        (List.range ((l.length - n - 1) / b)).map fun i => (l.drop (n + i * b)).take b := by
  intro fuel
  induction fuel with
  | zero =>
    intro n hn
    have h0 : l.length - n - 1 = 0 := by omega
    simp [batchGenAux, h0]
  | succ fuel ih =>
    intro n hn
    by_cases h : (n : Int) < (l.length : Int) - (b : Int)
    · have hlt : n + b < l.length := by omega
      have hble : b ≤ l.length - n - 1 := by omega
      have hrec := ih (n + b) (by omega)
      rw [batchGenAux, if_pos h, hrec]
      have harg : l.length - n - 1 - b = l.length - (n + b) - 1 := by omega
      have hdiv : (l.length - n - 1) / b = (l.length - (n + b) - 1) / b + 1 := by
        rw [Nat.div_eq_sub_div hb hble, harg]
      rw [hdiv, List.range_succ_eq_map, List.map_cons, List.map_map]
      congr 1
      · simp
      · apply List.map_congr_left
        intro i _
        have h2 : n + b + i * b = n + (i + 1) * b := by ring
        simp [Function.comp, h2]
    · have hge : l.length - n - 1 < b := by omega
      rw [batchGenAux, if_neg h, Nat.div_eq_of_lt hge]
      simp

theorem batch_generator_eq_slices {α : Type u} (l : List α) (b : Nat) (hb : 0 < b) :
    batch_generator l b =
      (List.range ((l.length - 1) / b)).map fun i => (l.drop (i * b)).take b := by
  rw [batch_generator, batchGenAux_eq_slices l b hb l.length 0 (by omega)]
  simp

theorem mem_batchGenAux_slice {α : Type u} (l : List α) (b : Nat) :
    ∀ (fuel n : Nat) (mb : List α), mb ∈ batchGenAux l b fuel n →
      ∃ m, mb = (l.drop m).take b := by
  intro fuel
  induction fuel with
  | zero => intro n mb h; simp [batchGenAux] at h
  | succ fuel ih =>
    intro n mb h
    rw [batchGenAux] at h
    by_cases hc : (n : Int) < (l.length : Int) - (b : Int)
    · rw [if_pos hc] at h
      rcases List.mem_cons.mp h with h1 | h2
      · exact ⟨n, h1⟩
      · exact ih (n + b) mb h2
    · rw [if_neg hc] at h
      simp at h

theorem mem_batch_generator_slice {α : Type u} (l : List α) (b : Nat) (mb : List α)
    (h : mb ∈ batch_generator l b) : ∃ m, mb = (l.drop m).take b :=
  mem_batchGenAux_slice l b l.length 0 mb h

theorem mem_of_mem_batch {α : Type u} (l : List α) (b : Nat) (mb : List α)
    (h : mb ∈ batch_generator l b) : ∀ x ∈ mb, x ∈ l := by
  obtain ⟨m, rfl⟩ := mem_batch_generator_slice l b mb h
  intro x hx
  exact List.drop_subset m l (List.take_subset b _ hx)

theorem batch_generator_full_batches {α : Type u} (l : List α) (b : Nat) (hb : 0 < b) :
    ∀ mb ∈ batch_generator l b, mb.length = b := by
  rw [batch_generator_eq_slices l b hb]
  intro mb hmb
  rcases List.mem_map.mp hmb with ⟨i, hi, rfl⟩
  have hi' : i < (l.length - 1) / b := List.mem_range.mp hi
  have h1 : (i + 1) * b ≤ l.length - 1 := (Nat.le_div_iff_mul_le hb).mp (Nat.succ_le_of_lt hi')
  have h2 : (i + 1) * b = i * b + b := by ring
  simp only [List.length_take, List.length_drop]
  omega

theorem batch_elems_form {α : Type u} (ds : GridDS α) (nlats nlons : Nat)
    (latA lonA : List Int) (bsize : Nat)
    (mb : List ((Int × Int) × List (String × List (List (Option α)))))
    (hmb : mb ∈ batch_generator (make_batch ds nlats nlons latA lonA) bsize) :
    ∀ tp ∈ mb, ∃ i j, tp = ((i, j), patchAt ds nlats nlons i j) := by
  intro tp htp
  have hmem := mem_of_mem_batch _ _ _ hmb tp htp
  rcases (mem_make_batch ds nlats nlons latA lonA tp).mp hmem with ⟨i, j, _, _, rfl, _⟩
  exact ⟨i, j, rfl⟩

/-! ### Row-major indexing of the stacked anchor grid -/

theorem stackAnchors_get? (latA lonA : List Int) :
    ∀ (r c : Nat) (hr : r < latA.length) (hc : c < lonA.length),
      (stackAnchors latA lonA).get? (r * lonA.length + c) =
        some (latA.get ⟨r, hr⟩, lonA.get ⟨c, hc⟩) := by
  induction latA with
  | nil => intro r c hr hc; simp at hr
  | cons a as ih =>
    intro r c hr hc
    rw [stackAnchors, List.flatMap_cons]
    cases r with
    | zero =>
      rw [Nat.zero_mul, Nat.zero_add,
        List.get?_append (by simpa using hc), List.get?_map, List.get?_eq_get hc]
      rfl
    | succ r =>
      have hlen : (lonA.map fun j => (a, j)).length = lonA.length := by simp
      have hidx : (r + 1) * lonA.length + c = lonA.length + (r * lonA.length + c) := by ring
      rw [hidx, List.get?_append_right (by omega)]
      have hsub : lonA.length + (r * lonA.length + c) - (lonA.map fun j => (a, j)).length =
          r * lonA.length + c := by
        rw [hlen]; omega
      rw [hsub]
      exact ih r c (Nat.lt_of_succ_lt_succ hr) hc

/-! ### Parity of the halo numerator -/

theorem two_dvd_sum_sub_length (ks : List Nat) (hodd : ∀ k ∈ ks, k % 2 = 1) :
    (2 : Int) ∣ ((ks.sum : Int) - ks.length) := by
  induction ks with
  | nil => simp
  | cons k ks ih =>
    have hk := hodd k (List.mem_cons_self k ks)
    have hih := ih fun x hx => hodd x (List.mem_cons.mpr (Or.inr hx))
    rw [List.sum_cons, List.length_cons]
    omega

/-! ### Association lists and `mapM` bookkeeping (prep notebook) -/

theorem lookup_eq_none_of_not_mem {φ : Type u} (l : List (String × φ)) (v : String)
    (h : v ∉ l.map Prod.fst) : List.lookup v l = none := by
  induction l with
  | nil => rfl
  | cons nv l ih =>
    have hne : v ≠ nv.1 := by
      intro he
      exact h (by simp [he])
    obtain ⟨n, f⟩ := nv
    simp only [List.lookup, beq_false_of_ne hne]
    exact ih fun hx => h (by simpa using Or.inr hx)

theorem lookup_append_of_none {φ : Type u} (l1 l2 : List (String × φ)) (v : String)
    (h : List.lookup v l1 = none) : List.lookup v (l1 ++ l2) = List.lookup v l2 := by
  induction l1 with
  | nil => rfl
  | cons nv l ih =>
    obtain ⟨n, f⟩ := nv
    by_cases he : v = n
    · subst he
      simp [List.lookup] at h
    · rw [List.cons_append]
      simp only [List.lookup, beq_false_of_ne he] at h ⊢
      exact ih h

theorem lookup_isSome_of_mem {φ : Type u} (l : List (String × φ)) (v : String)
    (h : v ∈ l.map Prod.fst) : ∃ f, List.lookup v l = some f := by
  induction l with
  | nil => simp at h
  | cons nv l ih =>
    obtain ⟨n, g⟩ := nv
    by_cases he : v = n
    · subst he
      exact ⟨g, by simp [List.lookup]⟩
    · have h2 : v = n ∨ v ∈ l.map Prod.fst := by simpa using h
      rcases h2 with h' | h'
      · exact absurd h' he
      · obtain ⟨f, hf⟩ := ih h'
        exact ⟨f, by simpa [List.lookup, beq_false_of_ne he] using hf⟩

theorem lookup_append_of_some {φ : Type u} (l1 l2 : List (String × φ)) (v : String) (f : φ)
    (h : List.lookup v l1 = some f) : List.lookup v (l1 ++ l2) = some f := by
  induction l1 with
  | nil => simp [List.lookup] at h
  | cons nv l ih =>
    obtain ⟨n, g⟩ := nv
    by_cases he : v = n
    · subst he
      rw [List.cons_append]
      simp [List.lookup] at h ⊢
      exact h
    · rw [List.cons_append]
      simp only [List.lookup, beq_false_of_ne he] at h ⊢
      exact ih h

theorem selectVars_aux_fst {φ : Type u} (g : String → Option φ) :
    ∀ (names : List String) (l : List (String × φ)),
      (names.mapM fun v => (g v).map fun f => (v, f)) = some l → l.map Prod.fst = names := by
  intro names
  induction names with
  | nil =>
    intro l h
    simp only [List.mapM_nil, Option.pure_def, Option.some.injEq] at h
    simp [← h]
  | cons v vs ih =>
    intro l h
    rw [List.mapM_cons] at h
    cases hg : g v with
    | none => rw [hg] at h; simp at h
    | some f =>
      rw [hg] at h
      cases hm : (vs.mapM fun v => (g v).map fun f => (v, f)) with
      | none => rw [hm] at h; simp at h
      | some as =>
        rw [hm] at h
        have h' : (v, f) :: as = l := by simpa using h
        rw [← h']
        simp [ih as hm]

theorem selectVars_names {φ : Type u} (ds : RawDS φ) (names : List String) (r : RawDS φ)
    (h : selectVars ds names = some r) : dsNames r = names := by
  rw [selectVars] at h
  cases hm : (names.mapM fun v => (dsLookup ds v).map fun f => (v, f)) with
  | none => rw [hm] at h; simp at h
  | some l =>
    rw [hm] at h
    simp only [Option.map_some', Option.some.injEq] at h
    rw [← h, dsNames]
    exact selectVars_aux_fst (dsLookup ds) names l hm

theorem dsNames_iselDS {φ : Type u} (iselT : φ → Nat → φ) (ds : RawDS φ) (t : Nat) :
    dsNames (iselDS iselT ds t) = dsNames ds := by
  simp [dsNames, iselDS]

theorem append_key_ne (a b n : String) (h : a.length ≠ b.length) : a ++ n ≠ b ++ n := by
  intro he
  have hl := congrArg String.length he
  rw [String.length_append, String.length_append] at hl
  omega

/-! ### Pointwise cells of the grid augmenter -/

theorem zipWith_get?_some {γ : Type v} (f : γ → γ → γ) :
    ∀ (as bs : List γ) (n : Nat) (a b : γ), as.get? n = some a → bs.get? n = some b →
      (List.zipWith f as bs).get? n = some (f a b) := by
  intro as
  induction as with
  | nil => intro bs n a b ha _; simp at ha
  | cons x xs ih =>
    intro bs n a b ha hb
    cases bs with
    | nil => simp at hb
    | cons y ys =>
      cases n with
      | zero =>
        simp only [List.get?] at ha hb
        cases ha
        cases hb
        rfl
      | succ n =>
        simp only [List.get?] at ha hb
        rw [List.zipWith_cons_cons]
        simpa using ih ys n a b ha hb

theorem cellAt_gmap {γ : Type v} (f : γ → γ) (g : List (List γ)) (i k : Nat) :
    cellAt (some (gmap f g)) i k = (cellAt (some g) i k).map f := by
  rw [cellAt, cellAt, Option.some_bind, Option.some_bind, gmap, List.get?_map]
  cases g.get? i with
  | none => rfl
  | some row =>
    simp [List.get?_map]

theorem cellAt_gmap2 {γ : Type v} (f : γ → γ → γ) (g h : List (List γ)) (i k : Nat)
    (a b : γ) (ha : cellAt (some g) i k = some a) (hb : cellAt (some h) i k = some b) :
    cellAt (some (gmap2 f g h)) i k = some (f a b) := by
  rw [cellAt, Option.some_bind] at ha hb
  cases hrg : g.get? i with
  | none => rw [hrg] at ha; simp at ha
  | some rowg =>
    cases hrh : h.get? i with
    | none => rw [hrh] at hb; simp at hb
    | some rowh =>
      rw [hrg] at ha
      rw [hrh] at hb
      rw [cellAt, Option.some_bind, gmap2,
        zipWith_get?_some (List.zipWith f) g h i rowg rowh hrg hrh, Option.some_bind]
      exact zipWith_get?_some f rowg rowh k a b ha hb

theorem length_rangeUpAux_step_one :
    ∀ (fuel : Nat) (start stop : Int), (stop - start).toNat ≤ fuel →
      (rangeUpAux fuel start stop 1).length = (stop - start).toNat := by
  intro fuel
  induction fuel with
  | zero =>
    intro start stop h
    rw [rangeUpAux]
    simp only [List.length_nil]
    omega
  | succ fuel ih =>
    intro start stop h
    rw [rangeUpAux]
    by_cases hlt : start < stop
    · rw [if_pos hlt, List.length_cons, ih (start + 1) stop (by omega)]
      omega
    · rw [if_neg hlt]
      simp only [List.length_nil]
      omega

/-! ## Claims -/

/-- C1, counterexample: for the patch collection `[0]` (N = 1) and
`batch_size` 1 (so `0 < b ≤ N`), the claim demands `⌊N/b⌋ = 1` mini-batch,
but the generator's strict loop condition `n < N - b` yields none: the
final batch is dropped even though it is full. -/
theorem batch_generator_count_cex :
    (batch_generator [(0 : Nat)] 1).length ≠ [(0 : Nat)].length / 1 ∧
      0 < 1 ∧ 1 ≤ [(0 : Nat)].length := by
  decide

/-- C1, amended: for every patch collection and every positive `batch_size`,
`batch_generator` yields the successive contiguous slices of exactly
`batch_size` patches, in order from index 0, but it stops once
`batch_size` or fewer patches remain: it yields exactly
`⌊(N-1)/batch_size⌋` mini-batches, so when `batch_size` divides `N` the
final full batch is dropped along with the (empty) trailing partial
batch. -/
theorem batch_generator_slices_amended {α : Type u} (batch_set : List α) (batch_size : Nat)
    (hb : 0 < batch_size) :
    batch_generator batch_set batch_size =
      (List.range ((batch_set.length - 1) / batch_size)).map
        (fun i => (batch_set.drop (i * batch_size)).take batch_size) ∧
    (∀ mb ∈ batch_generator batch_set batch_size, mb.length = batch_size) ∧
    (batch_generator batch_set batch_size).length = (batch_set.length - 1) / batch_size := by
  refine ⟨batch_generator_eq_slices _ _ hb, batch_generator_full_batches _ _ hb, ?_⟩
  rw [batch_generator_eq_slices _ _ hb]
  simp

/-- C1, witness: on the five-patch collection `[0,1,2,3,4]` with
`batch_size` 2 the amended description holds concretely. -/
theorem batch_generator_slices_amended_witness :
    batch_generator [(0 : Nat), 1, 2, 3, 4] 2 =
      (List.range ((([(0 : Nat), 1, 2, 3, 4] : List Nat).length - 1) / 2)).map
        (fun i => (([(0 : Nat), 1, 2, 3, 4] : List Nat).drop (i * 2)).take 2) ∧
    (∀ mb ∈ batch_generator [(0 : Nat), 1, 2, 3, 4] 2, mb.length = 2) ∧
    (batch_generator [(0 : Nat), 1, 2, 3, 4] 2).length =
      (([(0 : Nat), 1, 2, 3, 4] : List Nat).length - 1) / 2 :=
  batch_generator_slices_amended [(0 : Nat), 1, 2, 3, 4] 2 (by decide)

/-- C2, counterexample: with window 5 and halo 3 (the spec's own example,
kernels `[3,3,3]`) over a 350-point axis the stride is `-1`; the anchor
range is `some []` — silently empty, not the error (`none`, a raise) the
claim demands. -/
theorem negative_stride_silent_cex :
    nlon_range 5 350 3 = some [] ∧ (nlon_range 5 350 3).isSome = true := by
  decide

/-- C2, amended: when `window_axis_size < 2·halo` (with the window no longer
than the axis) the derived stride is negative and the anchor range is
silently empty — zero patches and zero mini-batches follow, with no error;
only the boundary case `window_axis_size = 2·halo` (stride 0) raises, since
Python `range` rejects a zero step. -/
theorem stride_nonpositive_amended (nlons lonlen halo : Nat) (hwin : nlons ≤ lonlen) :
    (nlons < 2 * halo →
      nlon_range nlons lonlen halo = some [] ∧ nlat_range nlons lonlen halo = some []) ∧
    (nlons = 2 * halo →
      nlon_range nlons lonlen halo = none ∧ nlat_range nlons lonlen halo = none) ∧
    (∀ (ds : GridDS Int) (latAnchors : List Int),
      make_batch ds nlons nlons latAnchors [] = []) ∧
    (∀ batch_size : Nat,
      batch_generator
        ([] : List ((Int × Int) × List (String × List (List (Option Int))))) batch_size = []) := by
  refine ⟨?_, ?_, ?_, ?_⟩
  · intro h
    exact ⟨pyRange_neg_step_empty _ _ _ (by omega) (by omega),
      pyRange_neg_step_empty _ _ _ (by omega) (by omega)⟩
  · intro h
    constructor
    · rw [nlon_range, pyRange, if_pos (by omega)]
    · rw [nlat_range, pyRange, if_pos (by omega)]
  · intro ds latAnchors
    simp [make_batch, stackAnchors]
  · intro batch_size
    rfl

/-- C2, witness: window 5, halo 4, axis length 350 — the negative-stride
case of the amended claim, concretely. -/
theorem stride_nonpositive_amended_witness :
    nlon_range 5 350 4 = some [] ∧ nlat_range 5 350 4 = some [] :=
  (stride_nonpositive_amended 5 350 4 (by decide)).1 (by decide)

/-- C6, counterexample: for the kernel list `[2]` the quantity
`(sum - n) / 2 = 1/2` is not an integer, yet `halo_size` silently
truncates it to 0 instead of reporting a configuration error. -/
theorem halo_size_truncates_cex :
    halo_size [2] = 0 ∧
      ¬ ((2 : Int) ∣ ((([2] : List Nat).sum : Int) - ([2] : List Nat).length)) := by
  decide

/-- C6, amended: `halo_size` computes the truncation toward zero of
`(sum(k_i) - n) / 2`, which is exact — `2 · halo_size = sum - n` — whenever
every kernel size is odd; a non-integer value is silently truncated, never
reported. -/
theorem halo_size_odd_kernels_exact (conv_kernels : List Nat)
    (hodd : ∀ k ∈ conv_kernels, k % 2 = 1) :
    2 * halo_size conv_kernels = (conv_kernels.sum : Int) - conv_kernels.length := by
  rw [halo_size]
  exact Int.mul_tdiv_cancel' (two_dvd_sum_sub_length conv_kernels hodd)

/-- C6, witness: three odd kernels `[3,3,3]` give the exact halo 3. -/
theorem halo_size_odd_kernels_exact_witness :
    2 * halo_size [3, 3, 3] = (([3, 3, 3] : List Nat).sum : Int) - ([3, 3, 3] : List Nat).length :=
  halo_size_odd_kernels_exact [3, 3, 3] (by decide)

/-- C7: whenever `window_axis_size > 2·halo` the derived stride is positive
and both anchor ranges are defined, strictly increasing, and contain
exactly the values `window + k·stride` below the axis length. -/
theorem anchor_range_covers (window axisLen halo : Nat) (hwh : 2 * halo < window) :
    (0 : Int) < (window : Int) - 2 * halo ∧
    (∃ l, nlon_range window axisLen halo = some l ∧
      List.Pairwise (fun a c => a < c) l ∧
      ∀ v : Int, v ∈ l ↔
        ∃ k : Nat, v = window + k * ((window : Int) - 2 * halo) ∧ v < axisLen) ∧
    (∃ l, nlat_range window axisLen halo = some l ∧
      List.Pairwise (fun a c => a < c) l ∧
      ∀ v : Int, v ∈ l ↔
        ∃ k : Nat, v = window + k * ((window : Int) - 2 * halo) ∧ v < axisLen) := by
  have hstep : (0 : Int) < (window : Int) - 2 * halo := by omega
  refine ⟨hstep, ?_, ?_⟩
  · refine ⟨rangeUpAux ((axisLen : Int) - window).toNat window axisLen
        ((window : Int) - 2 * halo), ?_, pairwise_rangeUpAux _ hstep _ _ _, ?_⟩
    · rw [nlon_range]
      exact pyRange_pos_step _ _ _ hstep
    · intro v
      exact mem_rangeUpAux_iff _ hstep _ _ _ v (le_refl _)
  · refine ⟨rangeUpAux ((axisLen : Int) - window).toNat window axisLen
        ((window : Int) - 2 * halo), ?_, pairwise_rangeUpAux _ hstep _ _ _, ?_⟩
    · rw [nlat_range]
      exact pyRange_pos_step _ _ _ hstep
    · intro v
      exact mem_rangeUpAux_iff _ hstep _ _ _ v (le_refl _)

/-- C7, witness: window 5, halo 2, axis length 12. -/
theorem anchor_range_covers_witness :
    (0 : Int) < ((5 : Nat) : Int) - 2 * ((2 : Nat) : Int) ∧
    (∃ l, nlon_range 5 12 2 = some l ∧
      List.Pairwise (fun a c => a < c) l ∧
      ∀ v : Int, v ∈ l ↔
        ∃ k : Nat, v = ((5 : Nat) : Int) + k * (((5 : Nat) : Int) - 2 * ((2 : Nat) : Int)) ∧
          v < ((12 : Nat) : Int)) ∧
    (∃ l, nlat_range 5 12 2 = some l ∧
      List.Pairwise (fun a c => a < c) l ∧
      ∀ v : Int, v ∈ l ↔
        ∃ k : Nat, v = ((5 : Nat) : Int) + k * (((5 : Nat) : Int) - 2 * ((2 : Nat) : Int)) ∧
          v < ((12 : Nat) : Int)) :=
  anchor_range_covers 5 12 2 (by decide)

/-- C8: for predictions laid out on the `rows × cols` anchor grid with
`rows·cols = N`, the row-major reshape places the prediction with flat
index `r·cols + c` at position `(r, c)`, which is exactly the anchor pair
`(latAnchors[r], lonAnchors[c])` of the stacked patch enumeration; and the
derived reshape dimensions `(len nlat_range, len nlon_range)` for the
cropped 550-row × 350-column grid with window `(5,5)` and halo 2 equal the
hardcoded `(545, 345)`. -/
theorem prediction_reshape_row_major {β : Type u} (p : List β) (latA lonA : List Int)
    (hp : p.length = latA.length * lonA.length)
    (r c : Nat) (hr : r < latA.length) (hc : c < lonA.length) :
    (((reshape2 p latA.length lonA.length).get? r).bind fun row => row.get? c) =
      p.get? (r * lonA.length + c) ∧
    (stackAnchors latA lonA).get? (r * lonA.length + c) =
      some (latA.get ⟨r, hr⟩, lonA.get ⟨c, hc⟩) ∧
    (nlat_range 5 550 2).map List.length = some 545 ∧
    (nlon_range 5 350 2).map List.length = some 345 := by
  refine ⟨?_, stackAnchors_get? latA lonA r c hr hc, ?_, ?_⟩
  · rw [reshape2, get?_range_map _ _ r hr]
    simp only [Option.some_bind]
    rw [List.get?_take hc, List.get?_drop]
  · rw [nlat_range, show ((5 : Nat) : Int) - 2 * ((2 : Nat) : Int) = 1 by decide,
      pyRange_pos_step _ _ _ (by decide), Option.map_some',
      length_rangeUpAux_step_one _ _ _ (le_refl _)]
    decide
  · rw [nlon_range, show ((5 : Nat) : Int) - 2 * ((2 : Nat) : Int) = 1 by decide,
      pyRange_pos_step _ _ _ (by decide), Option.map_some',
      length_rangeUpAux_step_one _ _ _ (le_refl _)]
    decide

/-- C4: a candidate patch (anchor pair) appears in the flattened patch
collection exactly when it contains no undefined value in any variable of
the dataset; moreover everything in the collection is such a patch at some
candidate anchor pair. -/
theorem patch_exclusion_iff {α : Type u} (ds : GridDS α) (nlats nlons : Nat)
    (latA lonA : List Int) :
    (∀ i j, ((i, j), patchAt ds nlats nlons i j) ∈ make_batch ds nlats nlons latA lonA ↔
      (i ∈ latA ∧ j ∈ lonA ∧ hasNaN (patchAt ds nlats nlons i j) = false)) ∧
    (∀ x ∈ make_batch ds nlats nlons latA lonA,
      ∃ i j, i ∈ latA ∧ j ∈ lonA ∧ x = ((i, j), patchAt ds nlats nlons i j) ∧
        hasNaN x.2 = false) := by
  constructor
  · intro i j
    rw [mem_make_batch]
    constructor
    · rintro ⟨i', j', hi, hj, heq, hnan⟩
      have hfst := congrArg Prod.fst heq
      injection hfst with h1 h2
      subst h1
      subst h2
      exact ⟨hi, hj, hnan⟩
    · rintro ⟨hi, hj, hnan⟩
      exact ⟨i, j, hi, hj, rfl, hnan⟩
  · intro x hx
    rcases (mem_make_batch ds nlats nlons latA lonA x).mp hx with ⟨i, j, hi, hj, rfl, hnan⟩
    exact ⟨i, j, hi, hj, rfl, hnan⟩

/-- C4, witness: a 1×1-window dataset where the row-1 anchor carries a NaN;
the clean anchor `(0, 0)` appears in the collection. -/
theorem patch_exclusion_iff_witness :
    ((0, 0),
        patchAt (⟨["SSH"], fun _ i _ => if i = 1 then none else some (0 : Int)⟩ : GridDS Int)
          1 1 0 0) ∈
      make_batch (⟨["SSH"], fun _ i _ => if i = 1 then none else some (0 : Int)⟩ : GridDS Int)
        1 1 [0, 1] [0] :=
  ((patch_exclusion_iff
      (⟨["SSH"], fun _ i _ => if i = 1 then none else some (0 : Int)⟩ : GridDS Int)
      1 1 [0, 1] [0]).1 0 0).mpr ⟨by decide, by decide, by decide⟩

/-- C3: for every mini-batch yielded over the patch pipeline, the
convolution-branch tensor keeps the full `nlats × nlons` window of every
convolution variable, the dense-branch and target tensors are the inner
sub-windows trimmed by `halo` points on every edge of both spatial axes
(shape `(nlats - 2·halo) × (nlons - 2·halo)`), and each group's variables
are stacked along a new trailing channel axis in the scenario's declared
variable order. -/
theorem batch_tensor_shapes_and_trim {α : Type u} (ds : GridDS α) (sc : Scenario)
    (halo nlats nlons batch_size : Nat) (latA lonA : List Int)
    (mb : List ((Int × Int) × List (String × List (List (Option α)))))
    (hmb : mb ∈ batch_generator (make_batch ds nlats nlons latA lonA) batch_size)
    (hcv : ∀ v ∈ sc.conv_var, v ∈ ds.varNames)
    (hiv : ∀ v ∈ sc.input_var, v ∈ ds.varNames)
    (htv : ∀ v ∈ sc.target, v ∈ ds.varNames)
    (hc0 : sc.conv_var ≠ []) (hi0 : sc.input_var ≠ []) (ht0 : sc.target ≠ []) :
    ((batch_conv sc mb).length = mb.length ∧
      ∀ pl ∈ batch_conv sc mb, pl.length = nlats ∧ ∀ row ∈ pl,
        row.length = nlons ∧ ∀ cell ∈ row, cell.length = sc.conv_var.length) ∧
    ((batch_input sc halo nlats nlons mb).length = mb.length ∧
      ∀ pl ∈ batch_input sc halo nlats nlons mb, pl.length = nlats - 2 * halo ∧ ∀ row ∈ pl,
        row.length = nlons - 2 * halo ∧ ∀ cell ∈ row, cell.length = sc.input_var.length) ∧
    ((batch_target sc halo nlats nlons mb).length = mb.length ∧
      ∀ pl ∈ batch_target sc halo nlats nlons mb, pl.length = nlats - 2 * halo ∧ ∀ row ∈ pl,
        row.length = nlons - 2 * halo ∧ ∀ cell ∈ row, cell.length = sc.target.length) ∧
    (∀ (s : Nat) (i j : Int) (p : List (String × List (List (Option α)))),
      mb.get? s = some ((i, j), p) →
      (∀ r c, r < nlats → c < nlons →
        get4 (batch_conv sc mb) s r c =
          some (sc.conv_var.map fun v => ds.vals v (i - nlats + 1 + r) (j - nlons + 1 + c))) ∧
      (∀ r c, r < nlats - 2 * halo → c < nlons - 2 * halo →
        get4 (batch_input sc halo nlats nlons mb) s r c =
          some (sc.input_var.map fun v =>
            ds.vals v (i - nlats + 1 + (halo + r : Nat)) (j - nlons + 1 + (halo + c : Nat))) ∧
        get4 (batch_target sc halo nlats nlons mb) s r c =
          some (sc.target.map fun v =>
            ds.vals v (i - nlats + 1 + (halo + r : Nat)) (j - nlons + 1 + (halo + c : Nat))))) := by
  have hform := batch_elems_form ds nlats nlons latA lonA batch_size mb hmb
  have hts_conv : ∀ t ∈ sc.conv_var.map fun v => tensorOf mb v,
      shape3 t mb.length nlats nlons := by
    intro t ht
    rcases List.mem_map.mp ht with ⟨v, hv, rfl⟩
    exact shape3_tensorOf ds nlats nlons mb v hform (hcv v hv)
  have hts_input : ∀ t ∈ sc.input_var.map fun v => (tensorOf mb v).map (subWindow halo nlats nlons),
      shape3 t mb.length (nlats - 2 * halo) (nlons - 2 * halo) := by
    intro t ht
    rcases List.mem_map.mp ht with ⟨v, hv, rfl⟩
    exact shape3_tensorOf_sub ds halo nlats nlons mb v hform (hiv v hv)
  have hts_target : ∀ t ∈ sc.target.map fun v => (tensorOf mb v).map (subWindow halo nlats nlons),
      shape3 t mb.length (nlats - 2 * halo) (nlons - 2 * halo) := by
    intro t ht
    rcases List.mem_map.mp ht with ⟨v, hv, rfl⟩
    exact shape3_tensorOf_sub ds halo nlats nlons mb v hform (htv v hv)
  have hconv := varLast_spec _ mb.length nlats nlons
    (fun h => hc0 (List.map_eq_nil.mp h)) hts_conv
  have hinput := varLast_spec _ mb.length (nlats - 2 * halo) (nlons - 2 * halo)
    (fun h => hi0 (List.map_eq_nil.mp h)) hts_input
  have htarget := varLast_spec _ mb.length (nlats - 2 * halo) (nlons - 2 * halo)
    (fun h => ht0 (List.map_eq_nil.mp h)) hts_target
  refine ⟨⟨hconv.1, ?_⟩, ⟨hinput.1, ?_⟩, ⟨htarget.1, ?_⟩, ?_⟩
  · intro pl hpl
    obtain ⟨hpll, hrows⟩ := hconv.2.1 pl hpl
    refine ⟨hpll, fun row hrow => ⟨(hrows row hrow).1, fun cell hcell => ?_⟩⟩
    rw [(hrows row hrow).2 cell hcell, List.length_map]
  · intro pl hpl
    obtain ⟨hpll, hrows⟩ := hinput.2.1 pl hpl
    refine ⟨hpll, fun row hrow => ⟨(hrows row hrow).1, fun cell hcell => ?_⟩⟩
    rw [(hrows row hrow).2 cell hcell, List.length_map]
  · intro pl hpl
    obtain ⟨hpll, hrows⟩ := htarget.2.1 pl hpl
    refine ⟨hpll, fun row hrow => ⟨(hrows row hrow).1, fun cell hcell => ?_⟩⟩
    rw [(hrows row hrow).2 cell hcell, List.length_map]
  · intro s i j p hs
    have hsS : s < mb.length := by
      rcases List.get?_eq_some.mp hs with ⟨hlt, _⟩
      exact hlt
    have htp : ((i, j), p) ∈ mb := List.get?_mem hs
    rcases hform _ htp with ⟨i', j', heq⟩
    have hfst := congrArg Prod.fst heq
    have hsnd := congrArg Prod.snd heq
    injection hfst with h1 h2
    subst h1
    subst h2
    refine ⟨?_, ?_⟩
    · intro r c hr hc
      rw [show batch_conv sc mb = varLast (sc.conv_var.map fun v => tensorOf mb v) from rfl,
        hconv.2.2 s r c hsS hr hc]
      congr 1
      rw [List.map_map]
      apply List.map_congr_left
      intro v hv
      simp only [Function.comp_apply]
      exact cell3_patch ds nlats nlons mb v s r c i j p hs hsnd (hcv v hv) hr hc
    · intro r c hr hc
      constructor
      · rw [show batch_input sc halo nlats nlons mb =
            varLast (sc.input_var.map fun v => (tensorOf mb v).map (subWindow halo nlats nlons))
            from rfl,
          hinput.2.2 s r c hsS hr hc]
        congr 1
        rw [List.map_map]
        apply List.map_congr_left
        intro v hv
        simp only [Function.comp_apply]
        exact cell3_patch_sub ds halo nlats nlons mb v s r c i j p hs hsnd (hiv v hv) hr hc
      · rw [show batch_target sc halo nlats nlons mb =
            varLast (sc.target.map fun v => (tensorOf mb v).map (subWindow halo nlats nlons))
            from rfl,
          htarget.2.2 s r c hsS hr hc]
        congr 1
        rw [List.map_map]
        apply List.map_congr_left
        intro v hv
        simp only [Function.comp_apply]
        exact cell3_patch_sub ds halo nlats nlons mb v s r c i j p hs hsnd (htv v hv) hr hc

/-- C3, witness: the shape part of the claim on the concrete sample batch
`mbW` (1×1 windows, halo 0, scenario `scW`). -/
theorem batch_tensor_shapes_and_trim_witness :
    (batch_conv scW mbW).length = mbW.length ∧
      ∀ pl ∈ batch_conv scW mbW, pl.length = 1 ∧ ∀ row ∈ pl,
        row.length = 1 ∧ ∀ cell ∈ row, cell.length = scW.conv_var.length :=
  (batch_tensor_shapes_and_trim dsW scW 0 1 1 1 [0] [0, 1] mbW
    (by decide) (by decide) (by decide) (by decide)
    (by decide) (by decide) (by decide)).1

/-- C5: the prediction-stage tensors are constructed from the test-stage
patch collection `batch_test`; they equal the test-stage constructions and
do not depend on `batch_predict` at all. -/
theorem predict_inputs_from_test {α : Type u} (sc : Scenario) (halo nlats nlons : Nat)
    (batch_test batch_predict batch_predict' :
      List ((Int × Int) × List (String × List (List (Option α))))) :
    predict_conv sc batch_test batch_predict = test_conv sc batch_test ∧
    predict_input sc halo nlats nlons batch_test batch_predict =
      test_input sc halo nlats nlons batch_test ∧
    predict_conv sc batch_test batch_predict = predict_conv sc batch_test batch_predict' ∧
    predict_input sc halo nlats nlons batch_test batch_predict =
      predict_input sc halo nlats nlons batch_test batch_predict' :=
  ⟨rfl, rfl, rfl, rfl⟩

/-- C9: preparing a scenario's slices and loading one back by the same
(role, scenario-name) key returns a dataset whose variables are exactly
the scenario's `conv_var ∪ input_var ∪ target` plus the mask — no raw
variable outside the schema survives, and the mask is always present. -/
theorem prepare_load_round_trip {φ : Type u} (notnan : φ → φ) (andf : φ → φ → φ)
    (iselT : φ → Nat → φ) (addg : RawDS φ → Option (RawDS φ)) (cat : RawDS φ) (sc : Scenario)
    (training_time test_time predict_time mask_time : Nat) (st0 st' : Store φ)
    (hprep : prepare_data notnan andf iselT addg cat sc training_time test_time predict_time
      mask_time st0 = some st')
    (role : String) (hrole : role = "training" ∨ role = "test" ∨ role = "predict") :
    ∃ d, loader st' sc role = some d ∧
      ∀ v, v ∈ dsNames d ↔
        (v ∈ sc.conv_var ∨ v ∈ sc.input_var ∨ v ∈ sc.target ∨ v = "mask") := by
  rw [prepare_data] at hprep
  simp only [Option.bind_eq_bind, Option.bind_eq_some, Option.some.injEq] at hprep
  rcases hprep with ⟨ds1, haddg, m1, hm1, m2, hm2, m3, hm3, restricted, hsel, hst⟩
  subst hst
  have hrn := selectVars_names ds1 _ restricted hsel
  rw [dsNames] at hrn
  have main : ∀ (m : φ) (t : Nat) (v : String),
      v ∈ dsNames (iselDS iselT (⟨restricted.vars ++ [("mask", m)]⟩ : RawDS φ) t) ↔
        (v ∈ sc.conv_var ∨ v ∈ sc.input_var ∨ v ∈ sc.target ∨ v = "mask") := by
    intro m t v
    rw [dsNames_iselDS, dsNames]
    show v ∈ (restricted.vars ++ [("mask", m)]).map Prod.fst ↔ _
    rw [List.map_append, hrn]
    simp [or_assoc]
  rcases hrole with rfl | rfl | rfl
  · refine ⟨iselDS iselT
      (⟨restricted.vars ++ [("mask",
        andf (andf (iselT m1 mask_time) (iselT m2 mask_time)) (iselT m3 mask_time))]⟩ : RawDS φ)
      training_time, ?_, main _ training_time⟩
    rw [loader, show ("training" ++ "_" : String) = "training_" from rfl]
    have h1 : ("training_" ++ sc.name : String) ≠ "predict_" ++ sc.name :=
      append_key_ne _ _ _ (by decide)
    have h2 : ("training_" ++ sc.name : String) ≠ "test_" ++ sc.name :=
      append_key_ne _ _ _ (by decide)
    simp only [storeWrite, List.lookup, beq_false_of_ne h1, beq_false_of_ne h2,
      beq_self_eq_true]
  · refine ⟨iselDS iselT
      (⟨restricted.vars ++ [("mask",
        andf (andf (iselT m1 mask_time) (iselT m2 mask_time)) (iselT m3 mask_time))]⟩ : RawDS φ)
      test_time, ?_, main _ test_time⟩
    rw [loader, show ("test" ++ "_" : String) = "test_" from rfl]
    have h1 : ("test_" ++ sc.name : String) ≠ "predict_" ++ sc.name :=
      append_key_ne _ _ _ (by decide)
    simp only [storeWrite, List.lookup, beq_false_of_ne h1, beq_self_eq_true]
  · refine ⟨iselDS iselT
      (⟨restricted.vars ++ [("mask",
        andf (andf (iselT m1 mask_time) (iselT m2 mask_time)) (iselT m3 mask_time))]⟩ : RawDS φ)
      predict_time, ?_, main _ predict_time⟩
    rw [loader, show ("predict" ++ "_" : String) = "predict_" from rfl]
    simp only [storeWrite, List.lookup, beq_self_eq_true]

/-- C9, witness: running the preparer on the raw sample catalog `catW` for
scenario `scW` and loading the training slice back. -/
theorem prepare_load_round_trip_witness :
    ∃ d, loader stW scW "training" = some d ∧
      ∀ v, v ∈ dsNames d ↔
        (v ∈ scW.conv_var ∨ v ∈ scW.input_var ∨ v ∈ scW.target ∨ v = "mask") :=
  prepare_load_round_trip id (fun a _ => a) (fun f _ => f) some catW scW 0 0 0 0 [] stW
    rfl "training" (Or.inl rfl)

/-- C10: `add_grid` returns the dataset extended with exactly the five new
fields `X, Y, Z, dx, dy`, computed pointwise by the documented formulas
from the latitude, longitude and grid-spacing fields; every pre-existing
field is untouched (the embedding is a pure function, so determinism is
inherent). -/
theorem add_grid_spec {α : Type u} [DivisionRing α] (sinF cosF radians : α → α)
    (meanF stdF : List (List α) → α) (ds : RawDS (List (List α)))
    (lats lons dx0 dy0 : List (List α))
    (hyu : dsLookup ds "YU" = some lats) (hxu : dsLookup ds "XU" = some lons)
    (hdx : dsLookup ds "DXT" = some dx0) (hdy : dsLookup ds "DYT" = some dy0)
    (hfresh : ∀ v ∈ ["X", "Y", "Z", "dx", "dy"], v ∉ dsNames ds) :
    ∃ ds', add_grid sinF cosF radians meanF stdF ds = some ds' ∧
      dsNames ds' = dsNames ds ++ ["X", "Y", "Z", "dx", "dy"] ∧
      (∀ v ∈ dsNames ds, dsLookup ds' v = dsLookup ds v) ∧
      dsLookup ds' "X" = some (gmap (fun la => sinF (radians la)) lats) ∧
      dsLookup ds' "Y" =
        some (gmap2 (fun la lo => cosF (radians la) * sinF (radians lo)) lats lons) ∧
      dsLookup ds' "Z" =
        some (gmap2 (fun la lo => (-cosF (radians la)) * cosF (radians lo)) lats lons) ∧
      dsLookup ds' "dx" = some (gmap (fun d => (d - meanF dx0) / stdF dx0) dx0) ∧
      dsLookup ds' "dy" = some (gmap (fun d => (d - meanF dy0) / stdF dy0) dy0) ∧
      (∀ i k la, cellAt (some lats) i k = some la →
        cellAt (dsLookup ds' "X") i k = some (sinF (radians la))) ∧
      (∀ i k la lo, cellAt (some lats) i k = some la → cellAt (some lons) i k = some lo →
        cellAt (dsLookup ds' "Y") i k = some (cosF (radians la) * sinF (radians lo)) ∧
        cellAt (dsLookup ds' "Z") i k = some ((-cosF (radians la)) * cosF (radians lo))) ∧
      (∀ i k d, cellAt (some dx0) i k = some d →
        cellAt (dsLookup ds' "dx") i k = some ((d - meanF dx0) / stdF dx0)) ∧
      (∀ i k d, cellAt (some dy0) i k = some d →
        cellAt (dsLookup ds' "dy") i k = some ((d - meanF dy0) / stdF dy0)) := by
  have hadd : add_grid sinF cosF radians meanF stdF ds =
      some ⟨ds.vars ++
        [("X", gmap (fun la => sinF (radians la)) lats),
         ("Y", gmap2 (fun la lo => cosF (radians la) * sinF (radians lo)) lats lons),
         ("Z", gmap2 (fun la lo => (-cosF (radians la)) * cosF (radians lo)) lats lons),
         ("dx", gmap (fun d => (d - meanF dx0) / stdF dx0) dx0),
         ("dy", gmap (fun d => (d - meanF dy0) / stdF dy0) dy0)]⟩ := by
    rw [add_grid, hyu, hxu, hdx, hdy]
  have hnone : ∀ v ∈ (["X", "Y", "Z", "dx", "dy"] : List String),
      List.lookup v ds.vars = none := by
    intro v hv
    apply lookup_eq_none_of_not_mem
    exact hfresh v hv
  have hX := hnone "X" (by decide)
  have hY := hnone "Y" (by decide)
  have hZ := hnone "Z" (by decide)
  have hdx' := hnone "dx" (by decide)
  have hdy' := hnone "dy" (by decide)
  refine ⟨_, hadd, ?_, ?_, ?_, ?_, ?_, ?_, ?_, ?_, ?_, ?_, ?_⟩
  · simp [dsNames]
  · intro v hv
    rw [dsNames] at hv
    obtain ⟨f, hf⟩ := lookup_isSome_of_mem ds.vars v hv
    rw [dsLookup, dsLookup, hf]
    exact lookup_append_of_some _ _ _ _ hf
  · rw [dsLookup, lookup_append_of_none _ _ _ hX]
    rfl
  · rw [dsLookup, lookup_append_of_none _ _ _ hY]
    rfl
  · rw [dsLookup, lookup_append_of_none _ _ _ hZ]
    rfl
  · rw [dsLookup, lookup_append_of_none _ _ _ hdx']
    rfl
  · rw [dsLookup, lookup_append_of_none _ _ _ hdy']
    rfl
  · intro i k la hla
    rw [dsLookup, lookup_append_of_none _ _ _ hX]
    show cellAt (some (gmap (fun la => sinF (radians la)) lats)) i k = _
    rw [cellAt_gmap, hla, Option.map_some']
  · intro i k la lo hla hlo
    constructor
    · rw [dsLookup, lookup_append_of_none _ _ _ hY]
      exact cellAt_gmap2 _ lats lons i k la lo hla hlo
    · rw [dsLookup, lookup_append_of_none _ _ _ hZ]
      exact cellAt_gmap2 _ lats lons i k la lo hla hlo
  · intro i k d hd
    rw [dsLookup, lookup_append_of_none _ _ _ hdx']
    show cellAt (some (gmap (fun d => (d - meanF dx0) / stdF dx0) dx0)) i k = _
    rw [cellAt_gmap, hd, Option.map_some']
  · intro i k d hd
    rw [dsLookup, lookup_append_of_none _ _ _ hdy']
    show cellAt (some (gmap (fun d => (d - meanF dy0) / stdF dy0) dy0)) i k = _
    rw [cellAt_gmap, hd, Option.map_some']

/-- C10, witness: the augmenter on the one-cell sample grid `gridDSW`, with
the transcendental and reduction capabilities instantiated over `ℚ`. -/
theorem add_grid_spec_witness :
    ∃ ds', add_grid (fun x : ℚ => x) (fun x => x) (fun x => x) (fun _ => 0) (fun _ => 1)
        gridDSW = some ds' ∧
      dsNames ds' = dsNames gridDSW ++ ["X", "Y", "Z", "dx", "dy"] := by
  obtain ⟨ds', h1, h2, _⟩ :=
    add_grid_spec (fun x : ℚ => x) (fun x => x) (fun x => x) (fun _ => 0) (fun _ => 1)
      gridDSW [[1]] [[2]] [[3]] [[4]] rfl rfl rfl rfl (by decide)
  exact ⟨ds', h1, h2⟩

/-- C8, witness: a 2 × 3 anchor grid with six predictions, at `(r, c) =
(1, 2)`. -/
theorem prediction_reshape_row_major_witness :
    (((reshape2 [(10 : Nat), 11, 12, 13, 14, 15] ([100, 200] : List Int).length
          ([7, 8, 9] : List Int).length).get? 1).bind fun row => row.get? 2) =
      [(10 : Nat), 11, 12, 13, 14, 15].get? (1 * ([7, 8, 9] : List Int).length + 2) ∧
    (stackAnchors [100, 200] [7, 8, 9]).get? (1 * ([7, 8, 9] : List Int).length + 2) =
      some (([100, 200] : List Int).get ⟨1, by decide⟩, ([7, 8, 9] : List Int).get ⟨2, by decide⟩) ∧
    (nlat_range 5 550 2).map List.length = some 545 ∧
    (nlon_range 5 350 2).map List.length = some 345 :=
  prediction_reshape_row_major [(10 : Nat), 11, 12, 13, 14, 15] [100, 200] [7, 8, 9]
    (by decide) 1 2 (by decide) (by decide)
